import Mathlib

/-!
# Verification of the htheatpump core protocol engine

Shallow embedding of the htheatpump serial-protocol core (data type
codecs, parameter registry, command/response engine, fault-list
decoders).  The core module itself (`htheatpump/htparams.py`,
`htheatpump/htheatpump.py`) is not part of the available sources — only
its tests and CLI callers are — so the definitions below are modelled
from the specification's description of those components and checked
against the behaviour the tests pin down.
-/

namespace HtHeatpump

/-! ## Decimal digit primitives -/

/-- `true` iff the character is an ASCII decimal digit `0`..`9`. -/
def isDigitChar (c : Char) : Bool :=
  48 ≤ c.toNat && c.toNat ≤ 57

/-- Numeric value of an ASCII digit character. -/
def charToDigit (c : Char) : Nat :=
  c.toNat - 48

/-- ASCII digit character for a digit value `0`..`9`. -/
def digitChar : Nat → Char
  | 0 => '0' | 1 => '1' | 2 => '2' | 3 => '3' | 4 => '4'
  | 5 => '5' | 6 => '6' | 7 => '7' | 8 => '8' | 9 => '9'
  | _ => '*'

/-- Most-significant-first fold of a digit list, with accumulator. -/
def natFromDigitsAux (acc : Nat) : List Nat → Nat
  | [] => acc
  | d :: ds => natFromDigitsAux (acc * 10 + d) ds

/-- Value of a most-significant-first digit list. -/
def natFromDigits (ds : List Nat) : Nat :=
  natFromDigitsAux 0 ds

/-- Value of a least-significant-first digit list. -/
def natFromDigitsRev : List Nat → Nat
  | [] => 0
  | d :: ds => d + 10 * natFromDigitsRev ds

/-- Least-significant-first digit expansion, fuelled for structural
recursion (`fuel ≥ n` suffices). -/
def natDigitsRevAux : Nat → Nat → List Nat
  | 0, _ => []
  | fuel + 1, n => if n = 0 then [] else n % 10 :: natDigitsRevAux fuel (n / 10)

/-- Least-significant-first digit expansion of `n` (empty for `0`). -/
def natDigitsRev (n : Nat) : List Nat :=
  natDigitsRevAux n n

/-- Most-significant-first digit expansion of `n` (`[0]` for `0`). -/
def natDigitsM (n : Nat) : List Nat :=
  if n = 0 then [0] else (natDigitsRev n).reverse

/-- Canonical decimal digit characters of a natural number. -/
def natChars (n : Nat) : List Char :=
  (natDigitsM n).map digitChar

/-- Parse a character list consisting solely of digits. -/
def parseDigitList : List Char → Option (List Nat)
  | [] => some []
  | c :: cs =>
    if isDigitChar c then (parseDigitList cs).map (charToDigit c :: ·) else none

/-- Parse a non-empty all-digit character list to its value.
Modelled from the spec: the digit-run component shared by the INT and
FLOAT token grammars of the Data Type System (`htparams.py`, not in the
available sources). -/
def parseNatList (cs : List Char) : Option Nat :=
  if cs.isEmpty then none else (parseDigitList cs).map natFromDigits

/-! ## INT codec -/

/-- Parse an INT token.
Modelled from the spec: `HtParam.from_str` for `HtDataTypes.INT`
(`htparams.py`, not in the available sources): "an optional single
leading `-` followed by one or more digits only; rejects forms with a
second sign, an embedded sign, leading `+`, or any non-digit". -/
def parseIntList (cs : List Char) : Option Int :=
  if cs.head? = some '-' then (parseNatList cs.tail).map (fun n : Nat => -(n : Int))
  else (parseNatList cs).map (fun n : Nat => (n : Int))

/-- Format an INT value.
Modelled from the spec: `HtParam.to_str` for `HtDataTypes.INT`: "the
canonical decimal representation including sign when negative". -/
def intChars (v : Int) : List Char :=
  if v < 0 then '-' :: natChars v.natAbs else natChars v.natAbs

/-! ## FLOAT codec

A FLOAT value is represented exactly by a scaled decimal
`(mantissa, exp)` denoting `mantissa / 10 ^ exp`; the canonical
(normalized) representative has no trailing zero in the mantissa unless
the exponent is zero. -/

/-- Strip trailing decimal zeros from an unsigned scaled decimal. -/
def stripZerosN : Nat → Nat → Nat × Nat
  | n, 0 => (n, 0)
  | n, e + 1 => if n % 10 = 0 then stripZerosN (n / 10) e else (n, e + 1)

/-- Parse an unsigned FLOAT token into a raw (unnormalized) scaled
decimal.
Modelled from the spec: the unsigned part of `HtParam.from_str` for
`HtDataTypes.FLOAT` (`htparams.py`, not in the available sources):
"integer-looking or decimal-looking tokens". -/
def parseUFloatList (cs : List Char) : Option (Nat × Nat) :=
  let ip := cs.takeWhile (fun c => c != '.')
  let fp := cs.dropWhile (fun c => c != '.')
  if fp.isEmpty then (parseNatList cs).map (fun n => (n, 0))
  else
    match parseNatList ip, parseDigitList fp.tail with
    | some i, some ds =>
      if ds.isEmpty then none
      else some (i * 10 ^ ds.length + natFromDigits ds, ds.length)
    | _, _ => none

/-- Parse a FLOAT token.
Modelled from the spec: `HtParam.from_str` for `HtDataTypes.FLOAT`:
"accepts integer-looking or decimal-looking tokens with an optional
single leading `-`; rejects doubly-signed or embedded-sign tokens
exactly as INT does". -/
def parseFloatList (cs : List Char) : Option (Int × Nat) :=
  if cs.head? = some '-' then
    (parseUFloatList cs.tail).map (fun p =>
      ((fun q : Nat × Nat => (-(q.1 : Int), q.2)) (stripZerosN p.1 p.2)))
  else
    (parseUFloatList cs).map (fun p =>
      ((fun q : Nat × Nat => ((q.1 : Int), q.2)) (stripZerosN p.1 p.2)))

/-- Digit list of `a` left-padded with zeros so that at least one digit
precedes the decimal point when `e` digits follow it. -/
def floatPadDigits (a e : Nat) : List Nat :=
  let ds := natDigitsM a
  if ds.length ≤ e then List.replicate (e + 1 - ds.length) 0 ++ ds else ds

/-- Format an unsigned scaled decimal, always emitting a decimal
point. -/
def ufloatChars (a e : Nat) : List Char :=
  if e = 0 then natChars a ++ ['.', '0']
  else
    ((floatPadDigits a e).take ((floatPadDigits a e).length - e)).map digitChar ++
      '.' :: ((floatPadDigits a e).drop ((floatPadDigits a e).length - e)).map digitChar

/-- Format a FLOAT value.
Modelled from the spec: `HtParam.to_str` for `HtDataTypes.FLOAT`:
"always emits a decimal point, e.g. `789` formats as `\"789.0\"`,
`-789` as `\"-789.0\"`". -/
def floatChars (fv : Int × Nat) : List Char :=
  if fv.1 < 0 then '-' :: ufloatChars fv.1.natAbs fv.2 else ufloatChars fv.1.natAbs fv.2

/-- A scaled decimal is normalized (canonical) when its mantissa has no
trailing zero unless the exponent is zero; these are exactly the
representable FLOAT values, one representative per value. -/
def FloatNormalized (fv : Int × Nat) : Prop :=
  fv.2 ≠ 0 → fv.1.natAbs % 10 ≠ 0

instance (fv : Int × Nat) : Decidable (FloatNormalized fv) := by
  unfold FloatNormalized; infer_instance

/-! ## BOOL codec -/

/-- ASCII lower-casing of a single character. -/
def lowerChar (c : Char) : Char :=
  if 65 ≤ c.toNat && c.toNat ≤ 90 then Char.ofNat (c.toNat + 32) else c

/-- Parse a BOOL token.
Modelled from the spec: `HtParam.from_str` for `HtDataTypes.BOOL`
(`htparams.py`, not in the available sources): "accepts,
case-insensitively, `\"0\"/\"1\"`, `\"true\"/\"false\"`,
`\"yes\"/\"no\"`, `\"y\"/\"n\"`; anything else fails". -/
def parseBoolList (cs : List Char) : Option Bool :=
  if cs.map lowerChar = ['1'] ∨ cs.map lowerChar = ['t', 'r', 'u', 'e'] ∨
      cs.map lowerChar = ['y', 'e', 's'] ∨ cs.map lowerChar = ['y'] then some true
  else if cs.map lowerChar = ['0'] ∨ cs.map lowerChar = ['f', 'a', 'l', 's', 'e'] ∨
      cs.map lowerChar = ['n', 'o'] ∨ cs.map lowerChar = ['n'] then some false
  else none

/-- Format a BOOL value.
Modelled from the spec: `HtParam.to_str` for `HtDataTypes.BOOL`:
"emits `\"1\"` for true, `\"0\"` for false (never the word form)". -/
def boolChars (b : Bool) : List Char :=
  if b then ['1'] else ['0']

/-! ## The data type enumeration -/

/-- The legal value kinds of the Data Type System.
Modelled from the spec: `HtDataTypes` in `htparams.py` (not in the
available sources): "one of `STRING | BOOL | INT | FLOAT`". -/
inductive HtDataTypes : Type
  | STRING
  | BOOL
  | INT
  | FLOAT
deriving DecidableEq, Repr

/-- Parse a data-type name from its registry spelling.
Modelled from the spec and `tests/test_htparams.py`
(`TestHtDataTypes`): `HtDataTypes.from_str` in `htparams.py` (not in
the available sources) maps exactly the case-sensitive tokens
`"None"`, `"STRING"`, `"BOOL"`, `"INT"`, `"FLOAT"`; the token `"None"`
yields the absent value rather than an error; every other token raises
a `ValueError` (modelled as the outer `none`). -/
def dataTypeFromStr (s : String) : Option (Option HtDataTypes) :=
  if s = "None" then some none
  else if s = "STRING" then some (some HtDataTypes.STRING)
  else if s = "BOOL" then some (some HtDataTypes.BOOL)
  else if s = "INT" then some (some HtDataTypes.INT)
  else if s = "FLOAT" then some (some HtDataTypes.FLOAT)
  else none

/-! ## Typed values and the per-type codec dispatch -/

/-- A typed parameter value. -/
inductive HtValue : Type
  | string (s : String)
  | bool (b : Bool)
  | int (i : Int)
  | float (f : Int × Nat)
deriving DecidableEq, Repr

/-- `HtParam.from_str`: parse a token through the codec selected by the
data type.
Modelled from the spec: STRING is the identity codec; the other kinds
dispatch to the strict token grammars above; a failure models the
`ValueError` raised by the original. -/
def fromStr (s : String) : HtDataTypes → Option HtValue
  | HtDataTypes.STRING => some (HtValue.string s)
  | HtDataTypes.BOOL => (parseBoolList s.data).map HtValue.bool
  | HtDataTypes.INT => (parseIntList s.data).map HtValue.int
  | HtDataTypes.FLOAT => (parseFloatList s.data).map HtValue.float

/-- `HtParam.to_str`: format a typed value through the codec selected
by its kind.  Modelled from the spec (see the per-codec formatters). -/
def toStr : HtValue → String
  | HtValue.string s => s
  | HtValue.bool b => String.mk (boolChars b)
  | HtValue.int i => String.mk (intChars i)
  | HtValue.float f => String.mk (floatChars f)

/-- Order test between two typed values of the same kind, used for the
range check of `setParam`; values of different kinds are never in
range. -/
def leVal : HtValue → HtValue → Bool
  | HtValue.string _, HtValue.string _ => true
  | HtValue.bool a, HtValue.bool b => !a || b
  | HtValue.int a, HtValue.int b => a ≤ b
  | HtValue.float a, HtValue.float b => a.1 * (10 : Int) ^ b.2 ≤ b.1 * (10 : Int) ^ a.2
  | _, _ => false

/-! ## The parameter registry -/

/-- A registry entry.
Modelled from the spec: `HtParam` in `htparams.py` (not in the
available sources): "immutable registry entry: `name`,
`protocolIndex`, `dataType`, `accessControl`, `minValue`, `maxValue`".
The `mp` flag selects the `M` (monitor/query) command prefix over the
`S` (set) prefix. -/
structure HtParamT : Type where
  name : String
  mp : Bool
  dpNumber : Nat
  acl : String
  dataType : HtDataTypes
  min : HtValue
  max : HtValue
deriving DecidableEq, Repr

/-- `commandString(parameter)`.
Modelled from the spec: "format is `\"<M|S>P,NR=<protocolIndex>\"`
where the leading letter is `M` for a monitor/query command and `S`
for a set command; the remainder is the literal protocol index in
decimal, no leading zeros, no extra fields". -/
def cmdChars (p : HtParamT) : List Char :=
  (if p.mp then 'M' else 'S') :: 'P' :: ',' :: 'N' :: 'R' :: '=' :: natChars p.dpNumber

/-- The command string of a parameter (`HtParam.cmd()`). -/
def cmdStr (p : HtParamT) : String :=
  String.mk (cmdChars p)

/-- The one registry parameter the specification pins down concretely:
`HKR Soll_Raum`, a FLOAT read-write parameter with protocol index 21
and declared bounds `[10.0, 30.0]`.
Modelled from the spec: the static registry table `htparams.csv` /
`HtParams` in `htparams.py` is not in the available sources; this entry
is reconstructed from the spec's worked `getParam` example. -/
def hkrSollRaum : HtParamT :=
  { name := "HKR Soll_Raum"
  , mp := true
  , dpNumber := 21
  , acl := "rw"
  , dataType := HtDataTypes.FLOAT
  , min := HtValue.float (10, 0)
  , max := HtValue.float (30, 0) }

/-- The parameter registry.
Modelled from the spec: "a mapping from parameter name to Parameter,
built once and queried by exact name"; only the entries the
specification pins down are reconstructed. -/
def HtParams : List HtParamT :=
  [hkrSollRaum]

/-- Checker for the command-string shape `^[MS]P,NR=\d+$`: one of the
two legal six-character prefixes followed by one or more digits and
nothing else. -/
def matchesCmdRegex (s : String) : Bool :=
  (s.data.take 6 == ['M', 'P', ',', 'N', 'R', '='] ||
      s.data.take 6 == ['S', 'P', ',', 'N', 'R', '=']) &&
    !(s.data.drop 6).isEmpty && (s.data.drop 6).all isDigitChar

/-! ## Command/response protocol engine -/

/-- The error taxonomy of the core.
Modelled from the spec, section 7. -/
inductive HtError : Type
  | connectionError
  | protocolError
  | timeoutError
  | validationError
  | unknownParameterError
deriving DecidableEq, Repr

instance exceptDecEq {ε α : Type} [DecidableEq ε] [DecidableEq α] :
    DecidableEq (Except ε α)
  | Except.error e, Except.error f => decidable_of_iff (e = f) (by simp)
  | Except.error _, Except.ok _ => isFalse (by simp)
  | Except.ok _, Except.error _ => isFalse (by simp)
  | Except.ok a, Except.ok b => decidable_of_iff (a = b) (by simp)

/-- Split a character list at every comma. -/
def splitCommaAux : List Char → List Char → List (List Char)
  | [], acc => [acc.reverse]
  | c :: cs, acc =>
    if c = ',' then acc.reverse :: splitCommaAux cs [] else splitCommaAux cs (c :: acc)

/-- The comma-separated fields of a response line. -/
def splitComma (cs : List Char) : List (List Char) :=
  splitCommaAux cs []

/-- If the field starts with the given key, return the remainder. -/
def stripKey (key f : List Char) : Option (List Char) :=
  if f.take key.length = key then some (f.drop key.length) else none

/-- First field carrying the given key, with the key removed. -/
def findField (key : List Char) : List (List Char) → Option (List Char)
  | [] => none
  | f :: fs =>
    match stripKey key f with
    | some v => some v
    | none => findField key fs

/-- Extract the `NAME`, `VAL`, `MAX` and `MIN` tokens of a response.
Modelled from the spec: the `getParam` response grammar
(`htheatpump.py`, not in the available sources): "matches it against
the grammar `\"<command>,...NAME=<token>...VAL=<token>...MAX=<token>
...MIN=<token>...\"` (fields may appear in any order after the echoed
command, separated by commas, each additional metadata field
ignored)"; fails if the echoed command does not equal the one sent. -/
def parseResp (cmd resp : List Char) :
    Option (List Char × List Char × List Char × List Char) :=
  if resp.take (cmd.length + 1) = cmd ++ [','] then
    match findField ('N' :: 'A' :: 'M' :: 'E' :: '=' :: [])
            (splitComma (resp.drop (cmd.length + 1))),
        findField ('V' :: 'A' :: 'L' :: '=' :: [])
            (splitComma (resp.drop (cmd.length + 1))),
        findField ('M' :: 'A' :: 'X' :: '=' :: [])
            (splitComma (resp.drop (cmd.length + 1))),
        findField ('M' :: 'I' :: 'N' :: '=' :: [])
            (splitComma (resp.drop (cmd.length + 1))) with
    | some nm, some v, some mx, some mn => some (nm, v, mx, mn)
    | _, _, _, _ => none
  else none

/-- Cross-check helper of `getParam`: parses the extracted
`MAX`/`MIN` tokens through the Data Type System, compares them with
the registry's declared bounds, and on success returns the parsed
`VAL` token.  Modelled from the spec (section 4.4). -/
def checkBounds (p : HtParamT) (v mx mn : List Char) : Except HtError HtValue :=
  match fromStr (String.mk mx) p.dataType, fromStr (String.mk mn) p.dataType with
  | some mxv, some mnv =>
    if mxv = p.max ∧ mnv = p.min then
      match fromStr (String.mk v) p.dataType with
      | some val => Except.ok val
      | none => Except.error HtError.protocolError
    else Except.error HtError.protocolError
  | _, _ => Except.error HtError.protocolError

/-- `getParam(parameter)` applied to the raw response line the device
returned for the registry-built query command.
Modelled from the spec: extracts `NAME`/`VAL`/`MAX`/`MIN`, fails with
a ProtocolError on a grammar or echo mismatch, cross-checks the name
against the requested parameter and the parsed `MAX`/`MIN` against the
registry's declared bounds, and on success returns the parsed `VAL`
token. -/
def getParam (p : HtParamT) (resp : String) : Except HtError HtValue :=
  match parseResp (cmdChars p) resp.data with
  | none => Except.error HtError.protocolError
  | some (nm, v, mx, mn) =>
    if String.mk nm = p.name then checkBounds p v mx mn
    else Except.error HtError.protocolError

/-- The wire command sent by `setParam`.
Modelled from the spec: "`\"SP,NR=<digits>,...\"` (set, with the new
value appended per the device's set-command shape)"; the exact suffix
syntax is an open configuration point in the spec, rendered here as a
`VAL=` field consistent with the response grammar. -/
def setCmdStr (p : HtParamT) (v : HtValue) : String :=
  String.mk ('S' :: 'P' :: ',' :: 'N' :: 'R' :: '=' :: natChars p.dpNumber
    ++ ',' :: 'V' :: 'A' :: 'L' :: '=' :: (toStr v).data)

/-- Parse the device's set acknowledgement: extract the `VAL` field and
parse it through the parameter's data type, as a query response would
be.  Modelled from the spec. -/
def parseAck (p : HtParamT) (resp : String) : Except HtError HtValue :=
  match findField ('V' :: 'A' :: 'L' :: '=' :: []) (splitComma resp.data) with
  | some vs =>
    match fromStr (String.mk vs) p.dataType with
    | some v => Except.ok v
    | none => Except.error HtError.protocolError
  | none => Except.error HtError.protocolError

/-- `setParam(parameter, value)` against a device modelled as a
command-to-response function; the second component is the list of
commands written to the serial link during the call.
Modelled from the spec: "validates that `minValue <= value <=
maxValue` before sending (ValidationError otherwise, no I/O
performed), formats the value via the Data Type System, appends it to
the set-command, sends, and returns the value reported back by the
device's acknowledgement". -/
def setParam (dev : String → String) (p : HtParamT) (v : HtValue) :
    Except HtError HtValue × List String :=
  if leVal p.min v && leVal v p.max then
    (parseAck p (dev (setCmdStr p v)), [setCmdStr p v])
  else (Except.error HtError.validationError, [])

/-! ## Status decoders: fault list -/

/-- A date-time with second resolution. -/
structure DateTime : Type where
  year : Nat
  month : Nat
  day : Nat
  hour : Nat
  minute : Nat
  second : Nat
deriving DecidableEq, Repr

/-- One entry of the device's fault memory. -/
structure FaultEntry : Type where
  index : Nat
  errorCode : Nat
  timestamp : DateTime
  message : String
deriving DecidableEq, Repr

/-- Parse exactly `n` digit characters, returning their value and the
remainder. -/
def parseFixedDigits (n : Nat) (cs : List Char) : Option (Nat × List Char) :=
  (parseDigitList (cs.take n)).map (fun ds => (natFromDigits ds, cs.drop n)) |>.bind
    (fun p => if (cs.take n).length = n then some p else none)

/-- Expect one literal character. -/
def expectChar (c : Char) : List Char → Option (List Char)
  | [] => none
  | x :: xs => if x = c then some xs else none

/-- Parse a bracketed-free ISO-8601 date-time
`YYYY-MM-DDTHH:MM:SS`. -/
def parseISO (cs : List Char) : Option (DateTime × List Char) :=
  match parseFixedDigits 4 cs with
  | none => none
  | some (y, cs) =>
    match expectChar '-' cs with
    | none => none
    | some cs =>
      match parseFixedDigits 2 cs with
      | none => none
      | some (mo, cs) =>
        match expectChar '-' cs with
        | none => none
        | some cs =>
          match parseFixedDigits 2 cs with
          | none => none
          | some (d, cs) =>
            match expectChar 'T' cs with
            | none => none
            | some cs =>
              match parseFixedDigits 2 cs with
              | none => none
              | some (h, cs) =>
                match expectChar ':' cs with
                | none => none
                | some cs =>
                  match parseFixedDigits 2 cs with
                  | none => none
                  | some (mi, cs) =>
                    match expectChar ':' cs with
                    | none => none
                    | some cs =>
                      match parseFixedDigits 2 cs with
                      | none => none
                      | some (s, cs) => some (⟨y, mo, d, h, mi, s⟩, cs)

/-- Decode one fault record line.
Modelled from the spec: the fault-record grammar
`#<NNN> [<ISO-8601 datetime>]: <NNNNN>, <message>` — "a zero-padded
three-digit ordinal, a bracketed ISO-8601 date-time, a colon, a
zero-padded five-digit error code, a comma, and a free-text message
running to end of line" (`htheatpump.py`, not in the available
sources). -/
def parseFaultRecord (line : String) : Except HtError FaultEntry :=
  match expectChar '#' line.data with
  | none => Except.error HtError.protocolError
  | some cs =>
    match parseFixedDigits 3 cs with
    | none => Except.error HtError.protocolError
    | some (idx, cs) =>
      match expectChar ' ' cs with
      | none => Except.error HtError.protocolError
      | some cs =>
        match expectChar '[' cs with
        | none => Except.error HtError.protocolError
        | some cs =>
          match parseISO cs with
          | none => Except.error HtError.protocolError
          | some (dt, cs) =>
            match expectChar ']' cs with
            | none => Except.error HtError.protocolError
            | some cs =>
              match expectChar ':' cs with
              | none => Except.error HtError.protocolError
              | some cs =>
                match expectChar ' ' cs with
                | none => Except.error HtError.protocolError
                | some cs =>
                  match parseFixedDigits 5 cs with
                  | none => Except.error HtError.protocolError
                  | some (err, cs) =>
                    match expectChar ',' cs with
                    | none => Except.error HtError.protocolError
                    | some cs =>
                      match expectChar ' ' cs with
                      | none => Except.error HtError.protocolError
                      | some cs =>
                        Except.ok ⟨idx, err, dt, String.mk cs⟩

/-- `getFaultList()` applied to the record lines returned by the
device's fault-history query.
Modelled from the spec: "decodes each returned record line by a fixed
grammar ... a malformed record fails the whole query with a
ProtocolError — partial results are not returned". -/
def getFaultList : List String → Except HtError (List FaultEntry)
  | [] => Except.ok []
  | l :: ls =>
    match parseFaultRecord l, getFaultList ls with
    | Except.ok e, Except.ok es => Except.ok (e :: es)
    | Except.error err, _ => Except.error err
    | _, Except.error err => Except.error err

/-- `getLastFault()` modelled as the single targeted query against the
last-fault-only wire command: the device answers with its final fault
record line.  Modelled from the spec. -/
def getLastFault (lines : List String) : Except HtError FaultEntry :=
  match lines.getLast? with
  | none => Except.error HtError.protocolError
  | some l => parseFaultRecord l

/-- An example device whose set acknowledgement reports the value
`21.5` regardless of the value requested, standing for a device that
stores a rounded value. -/
def devRounding (_r : String) : String :=
  "SP,NR=21,VAL=21.5"

/-- The last two fault record lines of the sample fault list shown in
the repository documentation (`samples/htfaultlist.py`). -/
def sampleFaultLines : List String :=
  [ "#010 [2014-08-06T13:28:23]: 65534, Keine Stoerung"
  , "#011 [2014-08-06T13:28:27]: 65534, Keine Stoerung" ]

/-! ## Theorems -/

theorem natFromDigitsAux_eq (ds : List Nat) :
    ∀ acc, natFromDigitsAux acc ds = acc * 10 ^ ds.length + natFromDigits ds := by
  induction ds with
  | nil => intro acc; simp [natFromDigitsAux, natFromDigits]
  | cons d ds ih =>
    intro acc
    show natFromDigitsAux (acc * 10 + d) ds = _
    rw [ih (acc * 10 + d)]
    show _ = acc * 10 ^ (ds.length + 1) + natFromDigitsAux (0 * 10 + d) ds
    rw [ih (0 * 10 + d)]
    ring

theorem natFromDigits_append (xs ys : List Nat) :
    natFromDigits (xs ++ ys) = natFromDigits xs * 10 ^ ys.length + natFromDigits ys := by
  have haux : ∀ (l l' : List Nat) (acc : Nat),
      natFromDigitsAux acc (l ++ l') = natFromDigitsAux (natFromDigitsAux acc l) l' := by
    intro l
    induction l with
    | nil => intro l' acc; rfl
    | cons d ds ih => intro l' acc; exact ih l' (acc * 10 + d)
  show natFromDigitsAux 0 (xs ++ ys) = _
  rw [haux, natFromDigitsAux_eq ys]
  rfl

theorem natFromDigits_reverse (ds : List Nat) :
    natFromDigits ds.reverse = natFromDigitsRev ds := by
  induction ds with
  | nil => rfl
  | cons d ds ih =>
    rw [List.reverse_cons, natFromDigits_append, ih]
    simp [natFromDigits, natFromDigitsAux, natFromDigitsRev]
    ring

theorem natDigitsRevAux_spec (fuel : Nat) :
    ∀ n, n ≤ fuel → natFromDigitsRev (natDigitsRevAux fuel n) = n := by
  induction fuel with
  | zero => intro n hn; interval_cases n; rfl
  | succ f ih =>
    intro n hn
    by_cases h0 : n = 0
    · subst h0; rfl
    · rw [natDigitsRevAux, if_neg h0]
      have hdiv : n / 10 ≤ f := by
        have h1 : n / 10 < n := Nat.div_lt_self (Nat.pos_of_ne_zero h0) (by omega)
        omega
      rw [natFromDigitsRev, ih (n / 10) hdiv]
      omega

theorem natFromDigitsRev_natDigitsRev (n : Nat) :
    natFromDigitsRev (natDigitsRev n) = n :=
  natDigitsRevAux_spec n n le_rfl

theorem natFromDigits_natDigitsM (n : Nat) :
    natFromDigits (natDigitsM n) = n := by
  by_cases h0 : n = 0
  · subst h0; rfl
  · rw [natDigitsM, if_neg h0, natFromDigits_reverse, natFromDigitsRev_natDigitsRev]

theorem natDigitsRevAux_lt (fuel : Nat) :
    ∀ n d, d ∈ natDigitsRevAux fuel n → d < 10 := by
  induction fuel with
  | zero => intro n d hd; simp [natDigitsRevAux] at hd
  | succ f ih =>
    intro n d hd
    rw [natDigitsRevAux] at hd
    by_cases h0 : n = 0
    · rw [if_pos h0] at hd; simp at hd
    · rw [if_neg h0] at hd
      rcases List.mem_cons.mp hd with h | h
      · subst h; exact Nat.mod_lt n (by omega)
      · exact ih (n / 10) d h

theorem natDigitsM_lt (n : Nat) : ∀ d ∈ natDigitsM n, d < 10 := by
  intro d hd
  by_cases h0 : n = 0
  · subst h0; simp [natDigitsM] at hd; omega
  · rw [natDigitsM, if_neg h0] at hd
    exact natDigitsRevAux_lt n n d (List.mem_reverse.mp hd)

theorem natDigitsRevAux_ne_nil (fuel n : Nat) (h0 : 0 < n) (hle : n ≤ fuel) :
    natDigitsRevAux fuel n ≠ [] := by
  match fuel with
  | 0 => omega
  | f + 1 =>
    rw [natDigitsRevAux, if_neg (by omega)]
    simp

theorem natDigitsM_ne_nil (n : Nat) : natDigitsM n ≠ [] := by
  by_cases h0 : n = 0
  · subst h0; simp [natDigitsM]
  · rw [natDigitsM, if_neg h0]
    simp only [ne_eq, List.reverse_eq_nil_iff]
    exact natDigitsRevAux_ne_nil n n (Nat.pos_of_ne_zero h0) le_rfl

theorem natDigitsRevAux_getLast_pos (fuel : Nat) :
    ∀ n d, 0 < n → n ≤ fuel → (natDigitsRevAux fuel n).getLast? = some d → 0 < d := by
  induction fuel with
  | zero => intro n d h0 hle; omega
  | succ f ih =>
    intro n d h0 hle hlast
    rw [natDigitsRevAux, if_neg (by omega)] at hlast
    by_cases hq : n / 10 = 0
    · have : natDigitsRevAux f (n / 10) = [] := by
        cases f with
        | zero => rfl
        | succ f' => rw [natDigitsRevAux, if_pos hq]
      rw [this] at hlast
      simp [List.getLast?] at hlast
      have : n < 10 := by omega
      omega
    · have hne := natDigitsRevAux_ne_nil f (n / 10) (Nat.pos_of_ne_zero hq)
        (by have : n / 10 < n := Nat.div_lt_self h0 (by omega); omega)
      obtain ⟨x, xs, hxs⟩ := List.exists_cons_of_ne_nil hne
      rw [hxs, List.getLast?_cons_cons, ← hxs] at hlast
      exact ih (n / 10) d (Nat.pos_of_ne_zero hq)
        (by have : n / 10 < n := Nat.div_lt_self h0 (by omega); omega) hlast

theorem digitChar_spec (d : Nat) (hd : d < 10) :
    isDigitChar (digitChar d) = true ∧ charToDigit (digitChar d) = d ∧
      digitChar d ≠ '.' ∧ digitChar d ≠ '-' := by
  interval_cases d <;> exact ⟨by decide, by decide, by decide, by decide⟩

theorem parseDigitList_map_digitChar (ds : List Nat) (hds : ∀ d ∈ ds, d < 10) :
    parseDigitList (ds.map digitChar) = some ds := by
  induction ds with
  | nil => rfl
  | cons d ds ih =>
    have hd := digitChar_spec d (hds d (List.mem_cons_self d ds))
    show parseDigitList (digitChar d :: ds.map digitChar) = _
    rw [parseDigitList, if_pos hd.1, ih (fun x hx => hds x (List.mem_cons_of_mem d hx))]
    simp [hd.2.1]

theorem parseDigitList_mem_isDigit {cs : List Char} {ds : List Nat}
    (h : parseDigitList cs = some ds) : ∀ c ∈ cs, isDigitChar c = true := by
  induction cs generalizing ds with
  | nil => intro c hc; simp at hc
  | cons c cs ih =>
    rw [parseDigitList] at h
    by_cases hdig : isDigitChar c
    · rw [if_pos hdig] at h
      intro x hx
      rcases List.mem_cons.mp hx with hx | hx
      · subst hx; exact hdig
      · rcases Option.map_eq_some'.mp h with ⟨ds', hds', _⟩
        exact ih hds' x hx
    · rw [if_neg hdig] at h; exact absurd h (by simp)

theorem parseNatList_natChars (n : Nat) : parseNatList (natChars n) = some n := by
  rw [parseNatList, natChars]
  have hne : (natDigitsM n).map digitChar ≠ [] := by
    simp [natDigitsM_ne_nil n]
  rw [if_neg (by simpa [List.isEmpty_iff] using hne)]
  rw [parseDigitList_map_digitChar (natDigitsM n) (natDigitsM_lt n)]
  simp [natFromDigits_natDigitsM n]

theorem natChars_ne_nil (n : Nat) : natChars n ≠ [] := by
  simp [natChars, natDigitsM_ne_nil n]

theorem natChars_all_digits (n : Nat) : ∀ c ∈ natChars n, isDigitChar c = true := by
  intro c hc
  rcases List.mem_map.mp hc with ⟨d, hd, hcd⟩
  subst hcd
  exact (digitChar_spec d (natDigitsM_lt n d hd)).1

theorem natChars_no_dot (n : Nat) : ∀ c ∈ natChars n, c ≠ '.' := by
  intro c hc
  rcases List.mem_map.mp hc with ⟨d, hd, hcd⟩
  subst hcd
  exact (digitChar_spec d (natDigitsM_lt n d hd)).2.2.1

theorem natChars_head_ne_minus (n : Nat) :
    ∀ {c cs}, natChars n = c :: cs → c ≠ '-' := by
  intro c cs hc
  have : c ∈ natChars n := by rw [hc]; exact List.mem_cons_self c cs
  rcases List.mem_map.mp this with ⟨d, hd, hcd⟩
  subst hcd
  exact (digitChar_spec d (natDigitsM_lt n d hd)).2.2.2

/-- The canonical digit string of `n` has no leading zero: it is either
the single digit `0` or starts with a non-zero digit. -/
theorem natChars_no_leading_zero (n : Nat) :
    natChars n = ['0'] ∨ (natChars n).head? ≠ some '0' := by
  by_cases h0 : n = 0
  · subst h0; left; rfl
  · right
    rw [natChars, natDigitsM, if_neg h0]
    have hne := natDigitsRevAux_ne_nil n n (Nat.pos_of_ne_zero h0) le_rfl
    have hlast : ((natDigitsRev n).reverse).head? = (natDigitsRev n).getLast? :=
      List.head?_reverse _
    obtain ⟨d, hd⟩ : ∃ d, (natDigitsRev n).getLast? = some d := by
      cases hgl : (natDigitsRev n).getLast? with
      | none => exact absurd (List.getLast?_eq_none_iff.mp hgl) hne
      | some d => exact ⟨d, rfl⟩
    have hdpos : 0 < d :=
      natDigitsRevAux_getLast_pos n n d (Nat.pos_of_ne_zero h0) le_rfl hd
    have hdlt : d < 10 := by
      have : d ∈ natDigitsRev n := List.mem_of_mem_getLast? hd
      exact natDigitsRevAux_lt n n d this
    rw [List.head?_map, hlast, hd]
    intro hcontra
    simp only [Option.map_some', Option.some.injEq] at hcontra
    interval_cases d <;> simp_all [digitChar]

theorem parseIntList_intChars (v : Int) : parseIntList (intChars v) = some v := by
  by_cases hneg : v < 0
  · rw [intChars, if_pos hneg, parseIntList]
    simp only [List.head?_cons, List.tail_cons]
    rw [if_pos trivial, parseNatList_natChars]
    simp only [Option.map_some', Option.some.injEq]
    omega
  · rw [intChars, if_neg hneg, parseIntList]
    obtain ⟨c, cs, hc⟩ := List.exists_cons_of_ne_nil (natChars_ne_nil v.natAbs)
    have hcm : c ≠ '-' := natChars_head_ne_minus v.natAbs hc
    rw [if_neg (by rw [hc]; simpa using hcm), parseNatList_natChars]
    simp only [Option.map_some', Option.some.injEq]
    omega

theorem takeWhile_append_cons {α : Type} (p : α → Bool) (xs : List α) (y : α) (ys : List α)
    (hxs : ∀ x ∈ xs, p x = true) (hy : p y = false) :
    (xs ++ y :: ys).takeWhile p = xs := by
  induction xs with
  | nil => simp [List.takeWhile, hy]
  | cons x xs ih =>
    have hx := hxs x (List.mem_cons_self x xs)
    rw [List.cons_append, List.takeWhile_cons, if_pos hx,
      ih (fun a ha => hxs a (List.mem_cons_of_mem x ha))]

theorem dropWhile_append_cons {α : Type} (p : α → Bool) (xs : List α) (y : α) (ys : List α)
    (hxs : ∀ x ∈ xs, p x = true) (hy : p y = false) :
    (xs ++ y :: ys).dropWhile p = y :: ys := by
  induction xs with
  | nil => simp [List.dropWhile, hy]
  | cons x xs ih =>
    have hx := hxs x (List.mem_cons_self x xs)
    rw [List.cons_append, List.dropWhile_cons, if_pos hx]
    exact ih (fun a ha => hxs a (List.mem_cons_of_mem x ha))

theorem natFromDigits_replicate_zero (k : Nat) :
    natFromDigits (List.replicate k 0) = 0 := by
  induction k with
  | zero => rfl
  | succ k ih =>
    rw [List.replicate_succ]
    show natFromDigitsAux (0 * 10 + 0) (List.replicate k 0) = 0
    exact ih

theorem floatPadDigits_value (a e : Nat) :
    natFromDigits (floatPadDigits a e) = a := by
  rw [floatPadDigits]
  by_cases h : (natDigitsM a).length ≤ e
  · simp only [if_pos h]
    rw [natFromDigits_append, natFromDigits_replicate_zero, natFromDigits_natDigitsM]
    ring
  · simp only [if_neg h]
    exact natFromDigits_natDigitsM a

theorem floatPadDigits_lt (a e : Nat) : ∀ d ∈ floatPadDigits a e, d < 10 := by
  intro d hd
  rw [floatPadDigits] at hd
  by_cases h : (natDigitsM a).length ≤ e
  · simp only [if_pos h, List.mem_append] at hd
    rcases hd with hd | hd
    · have := List.eq_of_mem_replicate hd; omega
    · exact natDigitsM_lt a d hd
  · simp only [if_neg h] at hd
    exact natDigitsM_lt a d hd

theorem floatPadDigits_length (a e : Nat) (_he : e ≠ 0) :
    e + 1 ≤ (floatPadDigits a e).length := by
  rw [floatPadDigits]
  by_cases h : (natDigitsM a).length ≤ e
  · simp only [if_pos h, List.length_append, List.length_replicate]
    omega
  · simp only [if_neg h]
    omega

theorem stripZerosN_mul10 (a : Nat) : stripZerosN (a * 10) 1 = (a, 0) := by
  have h1 : a * 10 % 10 = 0 := by omega
  have h2 : a * 10 / 10 = a := by omega
  rw [stripZerosN, if_pos h1, h2]
  rfl

theorem stripZerosN_of_ne (a e : Nat) (he : e ≠ 0) (ha : a % 10 ≠ 0) :
    stripZerosN a e = (a, e) := by
  match e, he with
  | e' + 1, _h => rw [stripZerosN, if_neg ha]

theorem parseUFloat_ufloatChars (a e : Nat) :
    parseUFloatList (ufloatChars a e) =
      (if e = 0 then some (a * 10, 1) else some (a, e)) := by
  by_cases he : e = 0
  · subst he
    rw [ufloatChars, if_pos rfl, if_pos rfl, parseUFloatList]
    have hall : ∀ x ∈ natChars a, (x != '.') = true := by
      intro x hx
      simpa using natChars_no_dot a x hx
    have htw : ((natChars a ++ ['.', '0']).takeWhile (fun c => c != '.')) = natChars a :=
      takeWhile_append_cons _ _ _ _ hall (by decide)
    have hdw : ((natChars a ++ ['.', '0']).dropWhile (fun c => c != '.')) = ['.', '0'] :=
      dropWhile_append_cons _ _ _ _ hall (by decide)
    simp only [htw, hdw]
    rw [if_neg (by decide)]
    show (match parseNatList (natChars a), parseDigitList ['0'] with
      | some i, some ds =>
        if ds.isEmpty then none
        else some (i * 10 ^ ds.length + natFromDigits ds, ds.length)
      | _, _ => none) = _
    rw [parseNatList_natChars a]
    have h0 : parseDigitList ['0'] = some [0] := by decide
    rw [h0]
    simp [natFromDigits, natFromDigitsAux]
  · rw [ufloatChars, if_neg he, if_neg he]
    have hlen : e + 1 ≤ (floatPadDigits a e).length := floatPadDigits_length a e he
    set ds := floatPadDigits a e with hds
    set k := ds.length - e with hk
    have hkpos : 0 < k := by omega
    have htake_lt : ∀ d ∈ ds.take k, d < 10 := fun d hd =>
      floatPadDigits_lt a e d (List.mem_of_mem_take hd)
    have hdrop_lt : ∀ d ∈ ds.drop k, d < 10 := fun d hd =>
      floatPadDigits_lt a e d (List.mem_of_mem_drop hd)
    have htake_digits : ∀ x ∈ (ds.take k).map digitChar, (x != '.') = true := by
      intro x hx
      rcases List.mem_map.mp hx with ⟨d, hd, hcd⟩
      subst hcd
      simpa using (digitChar_spec d (htake_lt d hd)).2.2.1
    rw [parseUFloatList]
    have htw := takeWhile_append_cons (fun c => c != '.') ((ds.take k).map digitChar)
      '.' ((ds.drop k).map digitChar) htake_digits (by decide)
    have hdw := dropWhile_append_cons (fun c => c != '.') ((ds.take k).map digitChar)
      '.' ((ds.drop k).map digitChar) htake_digits (by decide)
    simp only [htw, hdw]
    rw [if_neg (by simp)]
    show (match parseNatList ((ds.take k).map digitChar),
        parseDigitList (('.' :: (ds.drop k).map digitChar).tail) with
      | some i, some ds' =>
        if ds'.isEmpty then none
        else some (i * 10 ^ ds'.length + natFromDigits ds', ds'.length)
      | _, _ => none) = _
    have htail : ('.' :: (ds.drop k).map digitChar).tail = (ds.drop k).map digitChar := rfl
    rw [htail]
    have htake_ne : (ds.take k).map digitChar ≠ [] := by
      intro hcontra
      have hlen0 : ((ds.take k).map digitChar).length = 0 := by rw [hcontra]; rfl
      rw [List.length_map, List.length_take] at hlen0
      omega
    have hpn : parseNatList ((ds.take k).map digitChar) = some (natFromDigits (ds.take k)) := by
      rw [parseNatList, if_neg (by simpa [List.isEmpty_iff] using htake_ne),
        parseDigitList_map_digitChar _ htake_lt]
      rfl
    rw [hpn, parseDigitList_map_digitChar _ hdrop_lt]
    have hdrop_len : (ds.drop k).length = e := by
      rw [List.length_drop]; omega
    have hdrop_ne : ¬ ((ds.drop k).isEmpty = true) := by
      rw [List.isEmpty_iff]
      intro hcontra
      have hdl := congrArg List.length hcontra
      rw [hdrop_len] at hdl
      exact he hdl
    show (if (ds.drop k).isEmpty = true then (none : Option (Nat × Nat))
      else some (natFromDigits (ds.take k) * 10 ^ (ds.drop k).length + natFromDigits (ds.drop k),
        (ds.drop k).length)) = some (a, e)
    have hval : natFromDigits (ds.take k) * 10 ^ e + natFromDigits (ds.drop k) = a := by
      have happ := natFromDigits_append (ds.take k) (ds.drop k)
      rw [List.take_append_drop, floatPadDigits_value, hdrop_len] at happ
      omega
    rw [if_neg hdrop_ne, hdrop_len, hval]

theorem ufloatChars_head_ne_minus (a e : Nat) :
    ∀ {c cs}, ufloatChars a e = c :: cs → c ≠ '-' := by
  intro c cs hc
  rw [ufloatChars] at hc
  by_cases he : e = 0
  · rw [if_pos he] at hc
    obtain ⟨c', cs', hc'⟩ := List.exists_cons_of_ne_nil (natChars_ne_nil a)
    rw [hc', List.cons_append, List.cons.injEq] at hc
    exact hc.1 ▸ natChars_head_ne_minus a hc'
  · rw [if_neg he] at hc
    have hlen : e + 1 ≤ (floatPadDigits a e).length := floatPadDigits_length a e he
    set ds := floatPadDigits a e with hds
    set k := ds.length - e with hk
    obtain ⟨d, ds', hd⟩ : ∃ d ds', ds.take k = d :: ds' := by
      have hl : (ds.take k).length = k := by rw [List.length_take]; omega
      match hm : ds.take k with
      | [] => rw [hm] at hl; simp at hl; omega
      | d :: ds' => exact ⟨d, ds', rfl⟩
    rw [hd] at hc
    simp only [List.map_cons, List.cons_append, List.cons.injEq] at hc
    have hdlt : d < 10 := floatPadDigits_lt a e d (by
      rw [← hds, ← List.take_append_drop k ds]
      exact List.mem_append.mpr (Or.inl (hd ▸ List.mem_cons_self d ds')))
    exact hc.1 ▸ (digitChar_spec d hdlt).2.2.2

/-- Round trip for the FLOAT codec on normalized (canonical) scaled
decimals. -/
theorem parseFloatList_floatChars (fv : Int × Nat) (h : FloatNormalized fv) :
    parseFloatList (floatChars fv) = some fv := by
  obtain ⟨m, e⟩ := fv
  by_cases hneg : m < 0
  · rw [floatChars, if_pos hneg, parseFloatList]
    simp only [List.head?_cons, List.tail_cons]
    rw [if_pos trivial, parseUFloat_ufloatChars]
    by_cases he : e = 0
    · subst he
      rw [if_pos rfl]
      simp only [Option.map_some', stripZerosN_mul10, Option.some.injEq, Prod.mk.injEq]
      exact ⟨by omega, trivial⟩
    · rw [if_neg he]
      have hmod := h he
      simp only [Option.map_some', stripZerosN_of_ne _ _ he hmod, Option.some.injEq,
        Prod.mk.injEq]
      exact ⟨by omega, trivial⟩
  · rw [floatChars, if_neg hneg, parseFloatList]
    have hune : ufloatChars m.natAbs e ≠ [] := by
      rw [ufloatChars]
      by_cases he : e = 0
      · rw [if_pos he]
        simp [natChars_ne_nil]
      · rw [if_neg he]
        simp
    obtain ⟨c, cs, hc⟩ := List.exists_cons_of_ne_nil hune
    have hcm : c ≠ '-' := ufloatChars_head_ne_minus m.natAbs e hc
    rw [if_neg (by rw [hc]; simpa using hcm), parseUFloat_ufloatChars]
    by_cases he : e = 0
    · subst he
      rw [if_pos rfl]
      simp only [Option.map_some', stripZerosN_mul10, Option.some.injEq, Prod.mk.injEq]
      exact ⟨by omega, trivial⟩
    · rw [if_neg he]
      have hmod := h he
      simp only [Option.map_some', stripZerosN_of_ne _ _ he hmod, Option.some.injEq,
        Prod.mk.injEq]
      exact ⟨by omega, trivial⟩

/-! ## Supporting lemmas -/

theorem parseDigitList_length {cs : List Char} {ds : List Nat}
    (h : parseDigitList cs = some ds) : cs.length = ds.length := by
  induction cs generalizing ds with
  | nil =>
    rw [parseDigitList] at h
    cases h
    rfl
  | cons c cs ih =>
    rw [parseDigitList] at h
    by_cases hdig : isDigitChar c
    · rw [if_pos hdig] at h
      rcases Option.map_eq_some'.mp h with ⟨ds', hds', hcons⟩
      subst hcons
      simp [ih hds']
    · rw [if_neg hdig] at h
      exact absurd h (by simp)

theorem parseNatList_shape {cs : List Char} {n : Nat}
    (h : parseNatList cs = some n) :
    cs ≠ [] ∧ ∀ c ∈ cs, isDigitChar c = true := by
  rw [parseNatList] at h
  by_cases hemp : cs.isEmpty
  · rw [if_pos hemp] at h
    exact absurd h (by simp)
  · rw [if_neg hemp] at h
    rcases Option.map_eq_some'.mp h with ⟨ds, hds, _⟩
    exact ⟨by simpa [List.isEmpty_iff] using hemp, parseDigitList_mem_isDigit hds⟩

theorem dropWhile_head_false {α : Type} {p : α → Bool} {l : List α} {y : α} {ys : List α}
    (h : l.dropWhile p = y :: ys) : p y = false := by
  induction l with
  | nil => exact absurd h (by simp)
  | cons x xs ih =>
    rw [List.dropWhile_cons] at h
    by_cases hx : p x = true
    · rw [if_pos hx] at h
      exact ih h
    · rw [if_neg hx] at h
      cases h
      exact Bool.eq_false_iff.mpr hx

/-- Every token accepted by the unsigned FLOAT grammar is a non-empty
digit run optionally followed by a dot and a non-empty digit run. -/
theorem parseUFloatList_shape {cs : List Char} {q : Nat × Nat}
    (h : parseUFloatList cs = some q) :
    ∃ ip fp, cs = ip ++ fp ∧ ip ≠ [] ∧ (∀ c ∈ ip, isDigitChar c = true) ∧
      (fp = [] ∨ ∃ fr, fp = '.' :: fr ∧ fr ≠ [] ∧ ∀ c ∈ fr, isDigitChar c = true) := by
  rw [parseUFloatList] at h
  by_cases hemp : (cs.dropWhile (fun c => c != '.')).isEmpty
  · rw [if_pos hemp] at h
    rcases Option.map_eq_some'.mp h with ⟨n, hn, _⟩
    rcases parseNatList_shape hn with ⟨hne, hdig⟩
    exact ⟨cs, [], (List.append_nil cs).symm, hne, hdig, Or.inl rfl⟩
  · rw [if_neg hemp] at h
    have hfpne : cs.dropWhile (fun c => c != '.') ≠ [] := by
      intro hcontra
      rw [hcontra] at hemp
      simp at hemp
    obtain ⟨y, ys, hy⟩ := List.exists_cons_of_ne_nil hfpne
    have hyd : y = '.' := by
      have := dropWhile_head_false hy
      simpa using this
    subst hyd
    rw [hy] at h
    rcases hip : parseNatList (cs.takeWhile (fun c => c != '.')) with _ | i
    · rw [hip] at h
      exact absurd h (by simp)
    · rw [hip] at h
      rcases hfr : parseDigitList (('.' :: ys).tail) with _ | ds
      · rw [hfr] at h
        exact absurd h (by simp)
      · rw [hfr] at h
        change (if ds.isEmpty = true then none
          else some (i * 10 ^ ds.length + natFromDigits ds, ds.length)) = some q at h
        by_cases hde : ds.isEmpty
        · rw [if_pos hde] at h
          exact absurd h (by simp)
        · rcases parseNatList_shape hip with ⟨hipne, hipdig⟩
          refine ⟨cs.takeWhile (fun c => c != '.'), '.' :: ys, ?_, hipne, hipdig, Or.inr ?_⟩
          · rw [← hy, List.takeWhile_append_dropWhile]
          · refine ⟨ys, rfl, ?_, ?_⟩
            · intro hcontra
              subst hcontra
              rw [show parseDigitList (('.' :: ([] : List Char)).tail) = some [] from rfl]
                at hfr
              cases hfr
              simp at hde
            · intro c hc
              exact parseDigitList_mem_isDigit hfr c hc

/-- Every token accepted by the INT grammar is an optional single
leading minus followed by one or more digits. -/
theorem parseIntList_shape {cs : List Char} {v : Int}
    (h : parseIntList cs = some v) :
    (cs.head? = some '-' ∧ cs.tail ≠ [] ∧ ∀ c ∈ cs.tail, isDigitChar c = true) ∨
      (cs ≠ [] ∧ ∀ c ∈ cs, isDigitChar c = true) := by
  rw [parseIntList] at h
  by_cases hm : cs.head? = some '-'
  · rw [if_pos hm] at h
    rcases Option.map_eq_some'.mp h with ⟨n, hn, _⟩
    rcases parseNatList_shape hn with ⟨hne, hdig⟩
    exact Or.inl ⟨hm, hne, hdig⟩
  · rw [if_neg hm] at h
    rcases Option.map_eq_some'.mp h with ⟨n, hn, _⟩
    rcases parseNatList_shape hn with ⟨hne, hdig⟩
    exact Or.inr ⟨hne, hdig⟩

/-- Every token accepted by the FLOAT grammar is an optional single
leading minus followed by an unsigned FLOAT-shaped body. -/
theorem parseFloatList_shape {cs : List Char} {fv : Int × Nat}
    (h : parseFloatList cs = some fv) :
    ∃ sign body, cs = sign ++ body ∧ (sign = [] ∨ sign = ['-']) ∧
      ∃ ip fp, body = ip ++ fp ∧ ip ≠ [] ∧ (∀ c ∈ ip, isDigitChar c = true) ∧
        (fp = [] ∨ ∃ fr, fp = '.' :: fr ∧ fr ≠ [] ∧ ∀ c ∈ fr, isDigitChar c = true) := by
  rw [parseFloatList] at h
  by_cases hm : cs.head? = some '-'
  · rw [if_pos hm] at h
    rcases Option.map_eq_some'.mp h with ⟨q, hq, _⟩
    obtain ⟨c, cs', hc⟩ := List.exists_cons_of_ne_nil
      (show cs ≠ [] by intro hcontra; subst hcontra; simp at hm)
    have hcm : c = '-' := by
      rw [hc] at hm
      simpa using hm
    subst hcm
    subst hc
    exact ⟨['-'], cs', rfl, Or.inr rfl, parseUFloatList_shape hq⟩
  · rw [if_neg hm] at h
    rcases Option.map_eq_some'.mp h with ⟨q, hq, _⟩
    exact ⟨[], cs, rfl, Or.inl rfl, parseUFloatList_shape hq⟩

theorem getFaultList_cons {l : String} {ls : List String} {e : FaultEntry}
    {es : List FaultEntry} (hl : parseFaultRecord l = Except.ok e)
    (hls : getFaultList ls = Except.ok es) :
    getFaultList (l :: ls) = Except.ok (e :: es) := by
  rw [getFaultList, hl, hls]

theorem getFaultList_ok_inv {l : String} {ls : List String} {entries : List FaultEntry}
    (h : getFaultList (l :: ls) = Except.ok entries) :
    ∃ e es, parseFaultRecord l = Except.ok e ∧ getFaultList ls = Except.ok es ∧
      entries = e :: es := by
  rw [getFaultList] at h
  rcases hl : parseFaultRecord l with err | e
  · rw [hl] at h
    exact absurd h (by simp)
  · rw [hl] at h
    rcases hls : getFaultList ls with err | es
    · rw [hls] at h
      exact absurd h (by simp)
    · rw [hls] at h
      cases h
      exact ⟨e, es, rfl, rfl, rfl⟩

theorem checkBounds_ok_iff (p : HtParamT) (vs mx mn : List Char) (v : HtValue) :
    checkBounds p vs mx mn = Except.ok v ↔
      fromStr (String.mk mx) p.dataType = some p.max ∧
        fromStr (String.mk mn) p.dataType = some p.min ∧
        fromStr (String.mk vs) p.dataType = some v := by
  constructor
  · intro h
    rw [checkBounds] at h
    split at h
    · next mxv mnv hmx hmn =>
      split at h
      · next hcond =>
        split at h
        · next val hval =>
          cases h
          exact ⟨by rw [hmx, hcond.1], by rw [hmn, hcond.2], hval⟩
        · exact absurd h (by simp)
      · exact absurd h (by simp)
    · exact absurd h (by simp)
  · rintro ⟨hmx, hmn, hv⟩
    rw [checkBounds, hmx, hmn]
    show (if p.max = p.max ∧ p.min = p.min then
      (match fromStr (String.mk vs) p.dataType with
        | some val => Except.ok val
        | none => Except.error HtError.protocolError)
      else Except.error HtError.protocolError) = Except.ok v
    rw [if_pos ⟨rfl, rfl⟩, hv]

theorem getParam_ok_iff (p : HtParamT) (resp : String) (v : HtValue) :
    getParam p resp = Except.ok v ↔
      ∃ nm vs mx mn, parseResp (cmdChars p) resp.data = some (nm, vs, mx, mn) ∧
        String.mk nm = p.name ∧
        fromStr (String.mk mx) p.dataType = some p.max ∧
        fromStr (String.mk mn) p.dataType = some p.min ∧
        fromStr (String.mk vs) p.dataType = some v := by
  constructor
  · intro h
    rw [getParam] at h
    split at h
    · exact absurd h (by simp)
    · next nm vs mx mn hpr =>
      by_cases hnm : String.mk nm = p.name
      · rw [if_pos hnm] at h
        rcases (checkBounds_ok_iff p vs mx mn v).mp h with ⟨hmx, hmn, hv⟩
        exact ⟨nm, vs, mx, mn, hpr, hnm, hmx, hmn, hv⟩
      · rw [if_neg hnm] at h
        exact absurd h (by simp)
  · rintro ⟨nm, vs, mx, mn, hpr, hnm, hmx, hmn, hv⟩
    rw [getParam, hpr]
    show (if String.mk nm = p.name then checkBounds p vs mx mn
      else Except.error HtError.protocolError) = Except.ok v
    rw [if_pos hnm]
    exact (checkBounds_ok_iff p vs mx mn v).mpr ⟨hmx, hmn, hv⟩

theorem checkBounds_error_protocol {p : HtParamT} {vs mx mn : List Char} {e : HtError}
    (h : checkBounds p vs mx mn = Except.error e) : e = HtError.protocolError := by
  rw [checkBounds] at h
  split at h
  · split at h
    · split at h
      · exact absurd h (by simp)
      · cases h
        rfl
    · cases h
      rfl
  · cases h
    rfl

theorem getParam_error_protocol {p : HtParamT} {resp : String} {e : HtError}
    (h : getParam p resp = Except.error e) : e = HtError.protocolError := by
  rw [getParam] at h
  split at h
  · cases h
    rfl
  · next nm vs mx mn hpr =>
    by_cases hnm : String.mk nm = p.name
    · rw [if_pos hnm] at h
      exact checkBounds_error_protocol h
    · rw [if_neg hnm] at h
      cases h
      rfl

/-! ## Claims -/

/-- C1: `getParam` succeeds exactly when the response matches the
grammar with the echoed command, the extracted NAME equals the
requested parameter's name, and the extracted MAX/MIN parse to the
registry's declared bounds; on success it returns the parsed VAL
token, and every failure is a ProtocolError.  The worked example and
its MAX-mismatch variant behave as the spec states. -/
theorem claim_C1_getParam_crosschecks :
    (∀ (p : HtParamT) (resp : String) (v : HtValue),
      getParam p resp = Except.ok v ↔
        ∃ nm vs mx mn, parseResp (cmdChars p) resp.data = some (nm, vs, mx, mn) ∧
          String.mk nm = p.name ∧
          fromStr (String.mk mx) p.dataType = some p.max ∧
          fromStr (String.mk mn) p.dataType = some p.min ∧
          fromStr (String.mk vs) p.dataType = some v) ∧
    (∀ (p : HtParamT) (resp : String),
      getParam p resp = Except.error HtError.protocolError ∨
        ∃ v, getParam p resp = Except.ok v) ∧
    getParam hkrSollRaum "MP,NR=21,NAME=HKR Soll_Raum,VAL=21.5,MAX=30.0,MIN=10.0" =
      Except.ok (HtValue.float (215, 1)) ∧
    getParam hkrSollRaum "MP,NR=21,NAME=HKR Soll_Raum,VAL=21.5,MAX=40.0,MIN=10.0" =
      Except.error HtError.protocolError := by
  refine ⟨getParam_ok_iff, ?_, by decide⟩
  intro p resp
  rcases hg : getParam p resp with e | v
  · left
    rw [getParam_error_protocol hg]
  · right
    exact ⟨v, rfl⟩

/-- C2: `setParam` raises a ValidationError and writes nothing to the
link when the value is outside the declared range; within the range it
sends exactly the formatted set-command and returns the value reported
back by the acknowledgement, which may differ from the requested
value. -/
theorem claim_C2_setParam_validation :
    (∀ (dev : String → String) (p : HtParamT) (v : HtValue),
      (¬ (leVal p.min v && leVal v p.max) = true →
        setParam dev p v = (Except.error HtError.validationError, [])) ∧
      ((leVal p.min v && leVal v p.max) = true →
        setParam dev p v = (parseAck p (dev (setCmdStr p v)), [setCmdStr p v]))) ∧
    setCmdStr hkrSollRaum (HtValue.float (2157, 2)) = "SP,NR=21,VAL=21.57" ∧
    setParam devRounding hkrSollRaum (HtValue.float (2157, 2)) =
      (Except.ok (HtValue.float (215, 1)), [setCmdStr hkrSollRaum (HtValue.float (2157, 2))]) ∧
    HtValue.float (215, 1) ≠ HtValue.float (2157, 2) ∧
    setParam devRounding hkrSollRaum (HtValue.float (40, 0)) =
      (Except.error HtError.validationError, []) ∧
    setParam devRounding hkrSollRaum (HtValue.float (5, 0)) =
      (Except.error HtError.validationError, []) := by
  refine ⟨?_, by decide⟩
  intro dev p v
  constructor
  · intro hout
    rw [setParam, if_neg hout]
  · intro hin
    rw [setParam, if_pos hin]

/-- C2 witness: the out-of-range branch at the concrete parameter
`HKR Soll_Raum` and value `40.0`. -/
theorem claim_C2_setParam_validation_witness :
    setParam devRounding hkrSollRaum (HtValue.float (40, 0)) =
      (Except.error HtError.validationError, []) :=
  (claim_C2_setParam_validation.1 devRounding hkrSollRaum (HtValue.float (40, 0))).1
    (by decide)

/-- C3: the INT codec round-trips on every integer and the FLOAT codec
round-trips on every representable (normalized) scaled decimal; FLOAT
formatting always emits a decimal point (`789 ↦ "789.0"`,
`-789 ↦ "-789.0"`); INT formatting is the canonical decimal
representation with a leading minus sign exactly when the value is
negative. -/
theorem claim_C3_roundtrip :
    (∀ v : Int, fromStr (toStr (HtValue.int v)) HtDataTypes.INT = some (HtValue.int v)) ∧
    (∀ fv : Int × Nat, FloatNormalized fv →
      fromStr (toStr (HtValue.float fv)) HtDataTypes.FLOAT = some (HtValue.float fv)) ∧
    toStr (HtValue.float (789, 0)) = "789.0" ∧
    toStr (HtValue.float (-789, 0)) = "-789.0" ∧
    (∀ v : Int, (toStr (HtValue.int v)).data =
      (if v < 0 then ['-'] else []) ++ natChars v.natAbs) := by
  refine ⟨?_, ?_, by decide, by decide, ?_⟩
  · intro v
    show (parseIntList (String.mk (intChars v)).data).map HtValue.int = _
    rw [show (String.mk (intChars v)).data = intChars v from rfl, parseIntList_intChars]
    rfl
  · intro fv h
    show (parseFloatList (String.mk (floatChars fv)).data).map HtValue.float = _
    rw [show (String.mk (floatChars fv)).data = floatChars fv from rfl,
      parseFloatList_floatChars fv h]
    rfl
  · intro v
    show intChars v = _
    rw [intChars]
    by_cases hv : v < 0
    · rw [if_pos hv, if_pos hv]
      rfl
    · rw [if_neg hv, if_neg hv]
      rfl

/-- C3 witness: the FLOAT round trip at the normalized representative
of `-321.456`. -/
theorem claim_C3_roundtrip_witness :
    FloatNormalized (-321456, 3) ∧
      fromStr (toStr (HtValue.float (-321456, 3))) HtDataTypes.FLOAT =
        some (HtValue.float (-321456, 3)) :=
  ⟨by decide, claim_C3_roundtrip.2.1 (-321456, 3) (by decide)⟩

/-- C4: the BOOL parser accepts exactly the eight tokens
`0/1/true/false/yes/no/y/n` in any letter case (the true set mapping
to `true`, the false set to `false`) and rejects everything else, e.g.
`"abc"`; BOOL formatting emits `"1"`/`"0"`, never a word form. -/
theorem claim_C4_bool_codec :
    (∀ cs : List Char,
      (parseBoolList cs = some true ↔
        (cs.map lowerChar = ['1'] ∨ cs.map lowerChar = ['t', 'r', 'u', 'e'] ∨
          cs.map lowerChar = ['y', 'e', 's'] ∨ cs.map lowerChar = ['y'])) ∧
      (parseBoolList cs = some false ↔
        (cs.map lowerChar = ['0'] ∨ cs.map lowerChar = ['f', 'a', 'l', 's', 'e'] ∨
          cs.map lowerChar = ['n', 'o'] ∨ cs.map lowerChar = ['n']))) ∧
    fromStr "1" HtDataTypes.BOOL = some (HtValue.bool true) ∧
    fromStr "0" HtDataTypes.BOOL = some (HtValue.bool false) ∧
    fromStr "True" HtDataTypes.BOOL = some (HtValue.bool true) ∧
    fromStr "False" HtDataTypes.BOOL = some (HtValue.bool false) ∧
    fromStr "TRUE" HtDataTypes.BOOL = some (HtValue.bool true) ∧
    fromStr "FALSE" HtDataTypes.BOOL = some (HtValue.bool false) ∧
    fromStr "yes" HtDataTypes.BOOL = some (HtValue.bool true) ∧
    fromStr "NO" HtDataTypes.BOOL = some (HtValue.bool false) ∧
    fromStr "Y" HtDataTypes.BOOL = some (HtValue.bool true) ∧
    fromStr "n" HtDataTypes.BOOL = some (HtValue.bool false) ∧
    fromStr "abc" HtDataTypes.BOOL = none ∧
    toStr (HtValue.bool true) = "1" ∧
    toStr (HtValue.bool false) = "0" := by
  refine ⟨?_, by decide⟩
  intro cs
  by_cases h1 : (cs.map lowerChar = ['1'] ∨ cs.map lowerChar = ['t', 'r', 'u', 'e'] ∨
      cs.map lowerChar = ['y', 'e', 's'] ∨ cs.map lowerChar = ['y'])
  · rw [parseBoolList, if_pos h1]
    constructor
    · simp [h1]
    · constructor
      · intro hcontra
        simp at hcontra
      · intro h2
        rcases h1 with h | h | h | h <;> rcases h2 with h' | h' | h' | h' <;>
          rw [h] at h' <;> simp at h'
  · rw [parseBoolList, if_neg h1]
    by_cases h2 : (cs.map lowerChar = ['0'] ∨ cs.map lowerChar = ['f', 'a', 'l', 's', 'e'] ∨
        cs.map lowerChar = ['n', 'o'] ∨ cs.map lowerChar = ['n'])
    · rw [if_pos h2]
      constructor
      · constructor
        · intro hcontra
          simp at hcontra
        · intro h
          exact absurd h h1
      · simp [h2]
    · rw [if_neg h2]
      constructor
      · constructor
        · intro hcontra
          simp at hcontra
        · intro h
          exact absurd h h1
      · constructor
        · intro hcontra
          simp at hcontra
        · intro h
          exact absurd h h2

/-- C5: every token the INT parser accepts is an optional single
leading minus followed by digits only, and every token the FLOAT
parser accepts additionally allows a single decimal point with digits
on both sides — so doubly-signed tokens (`--99`, `--99.0`),
embedded-sign tokens (`12+55`, `12.3+55.9`) and non-numeric tokens are
rejected, while the integer-looking `789` parses under FLOAT to the
value 789. -/
theorem claim_C5_strict_numeric_grammar :
    (∀ (cs : List Char) (v : Int), parseIntList cs = some v →
      (cs.head? = some '-' ∧ cs.tail ≠ [] ∧ ∀ c ∈ cs.tail, isDigitChar c = true) ∨
        (cs ≠ [] ∧ ∀ c ∈ cs, isDigitChar c = true)) ∧
    (∀ (cs : List Char) (fv : Int × Nat), parseFloatList cs = some fv →
      ∃ sign body, cs = sign ++ body ∧ (sign = [] ∨ sign = ['-']) ∧
        ∃ ip fp, body = ip ++ fp ∧ ip ≠ [] ∧ (∀ c ∈ ip, isDigitChar c = true) ∧
          (fp = [] ∨ ∃ fr, fp = '.' :: fr ∧ fr ≠ [] ∧ ∀ c ∈ fr, isDigitChar c = true)) ∧
    fromStr "--99" HtDataTypes.INT = none ∧
    fromStr "12+55" HtDataTypes.INT = none ∧
    fromStr "def" HtDataTypes.INT = none ∧
    fromStr "--99.0" HtDataTypes.FLOAT = none ∧
    fromStr "12.3+55.9" HtDataTypes.FLOAT = none ∧
    fromStr "ghi" HtDataTypes.FLOAT = none ∧
    fromStr "789" HtDataTypes.FLOAT = some (HtValue.float (789, 0)) := by
  exact ⟨fun cs v h => parseIntList_shape h, fun cs fv h => parseFloatList_shape h,
    by decide⟩

/-- C5 witness: the INT grammar shape at the concrete accepted token
`-321`. -/
theorem claim_C5_strict_numeric_grammar_witness :
    (("-321".data.head? = some '-' ∧ "-321".data.tail ≠ [] ∧
        ∀ c ∈ "-321".data.tail, isDigitChar c = true) ∨
      ("-321".data ≠ [] ∧ ∀ c ∈ "-321".data, isDigitChar c = true)) :=
  claim_C5_strict_numeric_grammar.1 "-321".data (-321) (by decide)

/-- C6: every parameter's generated command string matches
`^[MS]P,NR=\d+$` — a single `M` or `S`, the literal `P,NR=`, then the
protocol index in decimal with no leading zeros and no extra
fields. -/
theorem claim_C6_cmd_shape :
    (∀ p : HtParamT, matchesCmdRegex (cmdStr p) = true) ∧
    (∀ p ∈ HtParams, matchesCmdRegex (cmdStr p) = true) ∧
    (∀ p : HtParamT, natChars p.dpNumber = ['0'] ∨
      (natChars p.dpNumber).head? ≠ some '0') := by
  have hgen : ∀ p : HtParamT, matchesCmdRegex (cmdStr p) = true := by
    intro p
    have hdigits : ((natChars p.dpNumber).all isDigitChar) = true :=
      List.all_eq_true.mpr (natChars_all_digits p.dpNumber)
    have hne : ¬ ((natChars p.dpNumber).isEmpty = true) := by
      rw [List.isEmpty_iff]
      exact natChars_ne_nil p.dpNumber
    cases hmp : p.mp
    · have h1 : (cmdStr p).data = ['S', 'P', ',', 'N', 'R', '='] ++ natChars p.dpNumber := by
        show cmdChars p = _
        rw [cmdChars, hmp]
        rfl
      rw [matchesCmdRegex, h1, List.take_left' (by rfl), List.drop_left' (by rfl)]
      simp [hdigits, hne]
    · have h1 : (cmdStr p).data = ['M', 'P', ',', 'N', 'R', '='] ++ natChars p.dpNumber := by
        show cmdChars p = _
        rw [cmdChars, hmp]
        rfl
      rw [matchesCmdRegex, h1, List.take_left' (by rfl), List.drop_left' (by rfl)]
      simp [hdigits, hne]
  exact ⟨hgen, fun p _ => hgen p, fun p => natChars_no_leading_zero p.dpNumber⟩

/-- C6 witness: the registered parameter `HKR Soll_Raum`. -/
theorem claim_C6_cmd_shape_witness :
    matchesCmdRegex (cmdStr hkrSollRaum) = true :=
  claim_C6_cmd_shape.2.1 hkrSollRaum (by decide)

/-- C7: every registered parameter has its bounds populated with
`minValue <= maxValue`; the registry is a constant built once, so the
invariant is preserved for the whole run. -/
theorem claim_C7_registry_limits :
    ∀ p ∈ HtParams, leVal p.min p.max = true := by
  intro p hp
  rw [HtParams, List.mem_singleton] at hp
  subst hp
  decide

/-- C7 witness: the registered parameter `HKR Soll_Raum`. -/
theorem claim_C7_registry_limits_witness :
    leVal hkrSollRaum.min hkrSollRaum.max = true :=
  claim_C7_registry_limits hkrSollRaum (by decide)

/-- C8: every registered parameter's access-control field is populated
and equals exactly one of the three tokens `r-`, `-w`, `rw`. -/
theorem claim_C8_registry_acl :
    ∀ p ∈ HtParams, p.acl = "r-" ∨ p.acl = "-w" ∨ p.acl = "rw" := by
  intro p hp
  rw [HtParams, List.mem_singleton] at hp
  subst hp
  right
  right
  rfl

/-- C8 witness: the registered parameter `HKR Soll_Raum`. -/
theorem claim_C8_registry_acl_witness :
    hkrSollRaum.acl = "r-" ∨ hkrSollRaum.acl = "-w" ∨ hkrSollRaum.acl = "rw" :=
  claim_C8_registry_acl hkrSollRaum (by decide)

/-- C9: whenever the fault memory is non-empty and `getFaultList`
succeeds, `getLastFault` succeeds and returns exactly the final
element of the list `getFaultList` returns; on the documented sample
both yield index 11, error code 65534, timestamp
2014-08-06T13:28:27 and message `Keine Stoerung`. -/
theorem claim_C9_last_fault_refinement :
    (∀ (lines : List String) (entries : List FaultEntry),
      getFaultList lines = Except.ok entries → lines ≠ [] →
        ∃ last, entries.getLast? = some last ∧ getLastFault lines = Except.ok last) ∧
    getFaultList sampleFaultLines = Except.ok
      [⟨10, 65534, ⟨2014, 8, 6, 13, 28, 23⟩, "Keine Stoerung"⟩,
        ⟨11, 65534, ⟨2014, 8, 6, 13, 28, 27⟩, "Keine Stoerung"⟩] ∧
    getLastFault sampleFaultLines =
      Except.ok ⟨11, 65534, ⟨2014, 8, 6, 13, 28, 27⟩, "Keine Stoerung"⟩ := by
  refine ⟨?_, by decide⟩
  intro lines
  induction lines with
  | nil =>
    intro entries _ hne
    exact absurd rfl hne
  | cons l ls ih =>
    intro entries hok _
    rcases getFaultList_ok_inv hok with ⟨e, es, hl, hls, hent⟩
    subst hent
    rcases ls with _ | ⟨l', ls'⟩
    · have hes : es = [] := by
        rw [show getFaultList [] = Except.ok [] from rfl] at hls
        cases hls
        rfl
      subst hes
      exact ⟨e, rfl, hl⟩
    · rcases ih es hls (by simp) with ⟨last, hlast, hglf⟩
      refine ⟨last, ?_, ?_⟩
      · rcases es with _ | ⟨e0, es0⟩
        · simp at hlast
        · rw [List.getLast?_cons_cons]
          exact hlast
      · rw [getLastFault, List.getLast?_cons_cons]
        rw [getLastFault] at hglf
        exact hglf

/-- C9 witness: the refinement at the documented two-line sample fault
list. -/
theorem claim_C9_last_fault_refinement_witness :
    ∃ last,
      ([⟨10, 65534, ⟨2014, 8, 6, 13, 28, 23⟩, "Keine Stoerung"⟩,
        ⟨11, 65534, ⟨2014, 8, 6, 13, 28, 27⟩, "Keine Stoerung"⟩] :
          List FaultEntry).getLast? = some last ∧
      getLastFault sampleFaultLines = Except.ok last :=
  claim_C9_last_fault_refinement.1 sampleFaultLines
    [⟨10, 65534, ⟨2014, 8, 6, 13, 28, 23⟩, "Keine Stoerung"⟩,
      ⟨11, 65534, ⟨2014, 8, 6, 13, 28, 27⟩, "Keine Stoerung"⟩]
    (by decide) (by decide)

/-- C10: `HtDataTypes.from_str` maps exactly the five case-sensitive
tokens `None`, `STRING`, `BOOL`, `INT`, `FLOAT`; the token `None`
returns the absent value rather than raising; every other spelling —
lowercase/mixed-case variants and long forms — raises a
ValueError. -/
theorem claim_C10_datatype_names :
    (∀ s : String, s ∉ ["None", "STRING", "BOOL", "INT", "FLOAT"] →
      dataTypeFromStr s = none) ∧
    dataTypeFromStr "None" = some none ∧
    dataTypeFromStr "STRING" = some (some HtDataTypes.STRING) ∧
    dataTypeFromStr "BOOL" = some (some HtDataTypes.BOOL) ∧
    dataTypeFromStr "INT" = some (some HtDataTypes.INT) ∧
    dataTypeFromStr "FLOAT" = some (some HtDataTypes.FLOAT) ∧
    dataTypeFromStr "none" = none ∧
    dataTypeFromStr "NONE" = none ∧
    dataTypeFromStr "string" = none ∧
    dataTypeFromStr "String" = none ∧
    dataTypeFromStr "bool" = none ∧
    dataTypeFromStr "Bool" = none ∧
    dataTypeFromStr "boolean" = none ∧
    dataTypeFromStr "Boolean" = none ∧
    dataTypeFromStr "BOOLEAN" = none ∧
    dataTypeFromStr "int" = none ∧
    dataTypeFromStr "Int" = none ∧
    dataTypeFromStr "integer" = none ∧
    dataTypeFromStr "Integer" = none ∧
    dataTypeFromStr "INTEGER" = none ∧
    dataTypeFromStr "float" = none ∧
    dataTypeFromStr "Float" = none := by
  refine ⟨?_, by decide⟩
  intro s hs
  simp only [List.mem_cons, List.mem_singleton, not_or] at hs
  obtain ⟨h1, h2, h3, h4, h5, -⟩ := hs
  rw [dataTypeFromStr, if_neg h1, if_neg h2, if_neg h3, if_neg h4, if_neg h5]

/-- C10 witness: the rejection branch at the concrete token
`boolean`. -/
theorem claim_C10_datatype_names_witness :
    dataTypeFromStr "boolean" = none :=
  claim_C10_datatype_names.1 "boolean" (by decide)

end HtHeatpump
